import Mathlib

/-!
Verification of the Python code-generation backend (`src/compiler-core/src/python.rs`,
`python/imports.rs`, `python/expression.rs`) of the `dusty-phillips/gleam` fork.

The Rust code is shallowly embedded:
* `Document<'a>` of the external pretty-printing library is embedded as the
  inductive `Doc`; its two textual constructors (`Str`/`String` and `to_doc`
  on string slices) are merged into `Doc.text`, since they carry the same text.
* Rust `Result<Document, Error>` becomes `Except GenError Doc`.
* Rust panics (`todo!`, `unreachable!`, `.expect`) abort the process; they are
  embedded as the distinguished error constructor `GenError.Todo`, which is
  disjoint from `GenError.Unsupported` (the only constructor of the Rust
  `Error` enum in `python.rs`).
* the `im::HashMap<EcoString, usize>` scope tables become association lists
  `List (String × Nat)` with leftmost-key lookup and insert-overwrites,
  matching the HashMap's single-binding-per-key semantics.
* Rust `&mut self` state threading becomes explicit state passing of the
  generator records.
-/

namespace Python

/-- Embedding of the pretty-printing `Document` values that the backend
builds (the layout engine itself is an external collaborator).
`text` covers `Document::Str`/`Document::String`/`.to_doc()`,
`line n` covers `Document::Line(n)` (`pretty::line()` is `line 1`,
`pretty::lines 2` is `line 2`), `break_ b u` covers `pretty::break_(b, u)`,
`concat` covers `Document::Vec`/`docvec!`, and `nest`, `group`,
`forceBreak` cover the corresponding combinators. -/
inductive Doc where
  | text : String → Doc
  | line : Nat → Doc
  | break_ : String → String → Doc
  | concat : List Doc → Doc
  | nest : Int → Doc → Doc
  | group : Doc → Doc
  | forceBreak : Doc → Doc

/-- `doc.surround(open, close)` of the pretty library: open, content, close. -/
def Doc.surround (d : Doc) (l r : String) : Doc :=
  .concat [.text l, d, .text r]

mutual

/-- The text a document renders to when every group stays flat: text renders
itself, `Line n` renders `n` hard newlines, a break renders its unbroken
string, and nesting/grouping add no characters. -/
def Doc.flatText : Doc → String
  | .text s => s
  | .line n => String.mk (List.replicate n '\n')
  | .break_ _ u => u
  | .concat ds => Doc.flatTextList ds
  | .nest _ d => d.flatText
  | .group d => d.flatText
  | .forceBreak d => d.flatText

/-- Flat-mode text of a list of documents, concatenated in order. -/
def Doc.flatTextList : List Doc → String
  | [] => ""
  | d :: ds => d.flatText ++ Doc.flatTextList ds

end

mutual

/-- Modelled from the spec: `Document::is_empty` of the external pretty
library, used by `call_arguments`; a document is empty when it renders no
characters in any mode, so text is empty iff its string is, a vector is
empty iff all parts are, and lines/breaks are never empty. -/
def Doc.is_empty : Doc → Bool
  | .text s => s = ""
  | .line _ => false
  | .break_ _ _ => false
  | .concat ds => Doc.isEmptyList ds
  | .nest _ d => d.is_empty
  | .group d => d.is_empty
  | .forceBreak d => d.is_empty

/-- Emptiness of every document in a list. -/
def Doc.isEmptyList : List Doc → Bool
  | [] => true
  | d :: ds => d.is_empty && Doc.isEmptyList ds

end

/-- `const INDENT: isize = 2` in `python.rs`. -/
def INDENT : Int := 2

/-- The word list of `is_usable_python_identifier` in `python.rs`
(Python keywords and reserved words). -/
def pythonKeywords : List String :=
  ["False", "None", "True", "and", "as", "assert", "async", "await",
   "break", "class", "continue", "def", "del", "elif", "else", "except",
   "finally", "for", "from", "global", "if", "import", "in", "is",
   "lambda", "nonlocal", "not", "or", "pass", "raise", "return", "try",
   "while", "with", "yield"]

/-- `is_usable_python_identifier` of `python.rs`: true iff the word does not
match any of the listed reserved words (the Rust `!matches!(word, ...)` is
embedded as non-membership in the same closed list). -/
def is_usable_python_identifier (word : String) : Bool :=
  !(pythonKeywords.contains word)

/-- `escape_identifier` of `python.rs`: `format!("{word}_")`. -/
def escape_identifier (word : String) : String :=
  word ++ "_"

/-- `maybe_escape_identifier_doc` of `python.rs`. -/
def maybe_escape_identifier_doc (word : String) : Doc :=
  if is_usable_python_identifier word then
    .text word
  else
    .text (escape_identifier word)

/-- `SrcSpan` of the AST: a start and end byte offset, used only to decorate
errors. -/
structure SrcSpan where
  start : Nat
  finish : Nat
deriving DecidableEq

/-- The error kinds a backend run can end with.  `Unsupported` embeds the
single constructor of the `Error` enum in `python.rs`.  `Todo` embeds a Rust
panic (`todo!`, `unreachable!`, `.expect`, `assert!`), which in Rust aborts
the process rather than being returned; no code in the backend ever
constructs `Error::Unsupported`. -/
inductive GenError where
  | Unsupported (feature : String) (location : SrcSpan)
  | Todo (msg : String)
deriving DecidableEq

/-- `Error::is_unsupported` of `python.rs`: true exactly on the
`Unsupported` constructor (a `Todo`, being a panic, is not an
`Error::Unsupported` value). -/
def GenError.is_unsupported : GenError → Bool
  | .Unsupported _ _ => true
  | .Todo _ => false

/-- `try_collect` on an iterator of results: the list of successes, or the
first error. -/
def exceptCollect : List (Except GenError α) → Except GenError (List α)
  | [] => .ok []
  | x :: xs => do
    let a ← x
    let as_ ← exceptCollect xs
    .ok (a :: as_)

/-- `Member` of `python/imports.rs`: a rendered name and an optional
rendered alias. -/
structure Member where
  name : Doc
  alias_ : Option Doc

/-- `Member::into_doc` of `python/imports.rs`. -/
def Member.into_doc (m : Member) : Doc :=
  match m.alias_ with
  | none => m.name
  | some a => .concat [m.name, .text " as ", a]

/-- `Import` of `python/imports.rs` (one table entry): a consolidated
dotted path string and its member list. -/
structure ImportEntry where
  from_ : String
  names : List Member

/-- `Import::into_doc` of `python/imports.rs`; the `assert!` guarding the
blank-path case (exactly one name expected) is embedded as a `Todo`
failure. -/
def ImportEntry.into_doc (i : ImportEntry) : Except GenError Doc :=
  if i.from_ = "" then
    match i.names with
    | [m] => .ok (.concat [.text "import ", m.into_doc])
    | _ => .error (.Todo "Only one name expected if from is blank")
  else if i.names.isEmpty then
    .ok (.concat [.text "import ", .text i.from_])
  else
    let members := i.names.map Member.into_doc
    let members := Doc.concat (members.intersperse (.break_ "," ", "))
    let members :=
      (Doc.concat [(Doc.concat [.break_ "" " ", members]).nest INDENT,
        .break_ "," " "]).group
    .ok (.concat [.text "from ", .text i.from_, .text " import (", members,
      .text ")", .line 1])

/-- `Imports` of `python/imports.rs`: a plain vector of entries. -/
structure Imports where
  imports : List ImportEntry

/-- `Imports::new` of `python/imports.rs` (`Default`: empty vector). -/
def Imports.new : Imports := ⟨[]⟩

/-- `Imports::register_module` of `python/imports.rs`: builds an entry from
the path and members and pushes it at the end of the vector. -/
def Imports.register_module (t : Imports) (from_ : String)
    (names : List Member) : Imports :=
  ⟨t.imports ++ [⟨from_, names⟩]⟩

/-- The entry order used by `Imports::into_doc`:
`sorted_by(|a, b| a.from.cmp(&b.from))` of itertools, a stable sort by the
path string, embedded as a stable merge sort with the same key. -/
def Imports.sortedEntries (t : Imports) : List ImportEntry :=
  t.imports.mergeSort fun a b => decide (a.from_ ≤ b.from_)

/-- `Imports::into_doc` of `python/imports.rs`: `Line(0)` for the empty
table, else the concatenation of the sorted entries' documents followed by
two lines. -/
def Imports.into_doc (t : Imports) : Except GenError Doc :=
  if t.imports.length = 0 then
    .ok (.line 0)
  else do
    let docs ← exceptCollect (t.sortedEntries.map ImportEntry.into_doc)
    .ok (.concat [.concat docs, .line 1, .line 1])

/-- `ast::AssignName`: a named binding or a discard placeholder. -/
inductive AssignName where
  | Variable : String → AssignName
  | Discard : String → AssignName
deriving DecidableEq

/-- `ast::UnqualifiedImport`: an unqualified imported member with its
optional alias (locations are irrelevant to generation and omitted). -/
structure UnqualifiedImport where
  name : String
  as_name : Option String
deriving DecidableEq

/-- `ast::Publicity` of a definition. -/
inductive Publicity where
  | Public
  | Private
deriving DecidableEq

/-- `Publicity::is_private`. -/
def Publicity.is_private : Publicity → Bool
  | .Public => false
  | .Private => true

/-- `ast::TypedArg` as consumed by this backend: only
`arg.names.get_variable_name()` is read, an optional bound name (`none` is
a discard parameter). -/
structure Arg where
  name : Option String
deriving DecidableEq

/-- `Arg::get_variable_name` (`arg.names.get_variable_name()`). -/
def Arg.get_variable_name (a : Arg) : Option String := a.name

/-- `type_::ValueConstructorVariant` as far as `variable` in
`expression.rs` distinguishes it: the three variants it can lower, and one
stand-in for every other variant (which hits a `todo!`). -/
inductive ValueConstructorVariant where
  | ModuleFn
  | ModuleConstant
  | LocalVariable
  | OtherVariant
deriving DecidableEq

/-- `ast::TypedStatement`/`ast::TypedExpr` restricted to what
`expression.rs` inspects.  `CallArg`s are embedded by their `.value`
expression (the only field the backend reads).  `Str` carries the string
literal's value; `Var` carries the name and its constructor variant; every
other expression form is `OtherExpr` (which hits a `todo!`). -/
inductive TypedExpr where
  | Str : String → TypedExpr
  | Call : TypedExpr → List TypedExpr → TypedExpr
  | Var : String → ValueConstructorVariant → TypedExpr
  | OtherExpr : TypedExpr

/-- `ast::TypedStatement`: an expression statement, or an assignment or a
`use` (both of which hit a `todo!`). -/
inductive Statement where
  | Expression : TypedExpr → Statement
  | Assignment : Statement
  | Use : Statement

/-- `analyse::TargetSupport`. -/
inductive TargetSupport where
  | Enforced
  | NotEnforced
deriving DecidableEq

/-- `TargetSupport::is_enforced`. -/
def TargetSupport.is_enforced : TargetSupport → Bool
  | .Enforced => true
  | .NotEnforced => false

/-- `ast::Function` as consumed by this backend: the optional name
(`Option<(SrcSpan, EcoString)>`, embedded without the span), publicity,
arguments, the optional `external_python` foreign binding
`(module, symbol)`, whether `implementations.supports(Target::Python)`
holds, and the body statements. -/
structure Function where
  name : Option String
  publicity : Publicity
  arguments : List Arg
  external_python : Option (String × String)
  supports_python : Bool
  body : List Statement

/-- `ast::Import` as consumed by this backend: the slash-separated module
path string, the optional alias (`as_name`, embedded without its span) and
the unqualified member list. -/
structure ImportDef where
  module : String
  as_name : Option AssignName
  unqualified_values : List UnqualifiedImport
deriving DecidableEq

/-- `ast::TypedDefinition`: the five definition variants.  `CustomType`,
`TypeAlias` and `ModuleConstant` carry no data this backend reads. -/
inductive Definition where
  | Import : ImportDef → Definition
  | CustomType : Definition
  | TypeAlias : Definition
  | ModuleConstant : Definition
  | Function : Function → Definition

/-- A `ast::TypedModule` as consumed by this backend: its slash-separated
name and its ordered definitions. -/
structure Module where
  name : String
  definitions : List Definition

/-- Helper for `str::split`: splits a character list at every occurrence of
the separator, accumulating the current chunk in reverse. -/
def splitCharAux (sep : Char) : List Char → List Char → List (List Char)
  | [], acc => [acc.reverse]
  | c :: cs, acc =>
    if c = sep then acc.reverse :: splitCharAux sep cs []
    else splitCharAux sep cs (c :: acc)

/-- Rust `str::split(sep)` for a character separator, as used by
`module.split('/')`: the list of chunks between occurrences of `sep`
(never empty; splitting the empty string yields one empty chunk, exactly as
in Rust). -/
def splitChar (sep : Char) (s : String) : List String :=
  (splitCharAux sep s.toList []).map fun l => ⟨l⟩

/-- Splits a nonempty list into its leading part and its last element,
embedding the Rust slice pattern `[parts @ .., module]`. -/
def splitLast : List String → Option (List String × String)
  | [] => none
  | [x] => some ([], x)
  | x :: y :: xs =>
    match splitLast (y :: xs) with
    | some (init, last) => some (x :: init, last)
    | none => none

/-- `parts.join(".")` of Rust. -/
def joinDot (parts : List String) : String :=
  String.intercalate "." parts

/-- The member built for one unqualified import in `register_import`:
the name escaped through the identifier policy, the alias preserved
verbatim when present. -/
def unqualifiedMember (u : UnqualifiedImport) : Member :=
  ⟨maybe_escape_identifier_doc u.name, u.as_name.map Doc.text⟩

/-- `Generator::register_import` of `python.rs`: the decision table on
(path segments, alias kind, member-list emptiness).  The two
`unreachable!` arms (empty path; alias together with unqualified members)
are embedded as `Todo` failures.  Arms are listed in the source's order,
so each arm sees only shapes the earlier arms did not match. -/
def register_import (t : Imports) (module : String)
    (as_name : Option AssignName) (unqualified : List UnqualifiedImport) :
    Except GenError Imports :=
  let path_parts := splitChar '/' module
  match path_parts, as_name, unqualified with
  | [], _, _ => .error (.Todo "Expected a module")
  | [m], none, [] => .ok (t.register_module m [])
  | [m], none, names => .ok (t.register_module m (names.map unqualifiedMember))
  | _, some (.Discard _), [] => .ok t
  | [m], some (.Variable a), [] =>
    .ok (t.register_module "" [⟨Doc.text m, some (Doc.text a)⟩])
  | ps, none, [] =>
    match splitLast ps with
    | some (parts, m) => .ok (t.register_module (joinDot parts) [⟨Doc.text m, none⟩])
    | none => .error (.Todo "Expected a module")
  | ps, some (.Variable a), [] =>
    match splitLast ps with
    | some (parts, m) =>
      .ok (t.register_module (joinDot parts) [⟨Doc.text m, some (Doc.text a)⟩])
    | none => .error (.Todo "Expected a module")
  | _, some _, _ => .error (.Todo "Import with both alias and unqualified imports")
  | ps, none, names =>
    .ok (t.register_module (joinDot ps) (names.map unqualifiedMember))

/-- The member built by `Generator::register_external_function` in
`python.rs`: the foreign symbol as the name; the alias is absent when the
local name equals the symbol and needs no escaping, the escaped local name
when escaping is needed, and the local name otherwise. -/
def external_member (name fn : String) : Member :=
  let needs_escaping := !is_usable_python_identifier name
  ⟨Doc.text fn,
    if name = fn && !needs_escaping then none
    else if needs_escaping then some (Doc.text (escape_identifier name))
    else some (Doc.text name)⟩

/-- `Generator::register_external_function` of `python.rs`: registers the
member under the binding's module path.  The `publicity` parameter is
accepted and ignored, as in the source; the debug `println!` is a stdout
side effect with no bearing on the produced value. -/
def register_external_function (t : Imports) (publicity : Publicity)
    (name module fn : String) : Imports :=
  let _ := publicity
  t.register_module module [external_member name fn]

/-- `Position` of `expression.rs`: tail / not-tail tag. -/
inductive Position where
  | Tail
  | NotTail
deriving DecidableEq

/-- `Position::is_tail`. -/
def Position.is_tail : Position → Bool
  | .Tail => true
  | .NotTail => false

/-- Lookup in a scope table (`im::HashMap<EcoString, usize>.get`), leftmost
binding wins. -/
def scopeGet (m : List (String × Nat)) (k : String) : Option Nat :=
  m.lookup k

/-- Insert into a scope table (`im::HashMap::insert`): the new binding
shadows any previous one for the same key under leftmost-wins lookup. -/
def scopeInsert (m : List (String × Nat)) (k : String) (v : Nat) :
    List (String × Nat) :=
  (k, v) :: m

/-- `expression::Generator` of `expression.rs` (the `line_numbers`
reference is carried by the source only for diagnostics and is read by none
of the embedded paths, so it is omitted). -/
structure ExprGen where
  module_name : String
  function_name : Option String
  function_arguments : List (Option String)
  current_scope_vars : List (String × Nat)
  function_position : Position
  scope_position : Position
  tail_recursion_used : Bool

/-- `expression::Generator::new`: seeds the scope with every named argument
at counter 0 and clears the recursion target name if an argument shadows
it, scanning the arguments left to right. -/
def ExprGen.new (module_name : String) (function_name : String)
    (function_arguments : List (Option String))
    (current_scope_vars : List (String × Nat)) : ExprGen :=
  let st := function_arguments.foldl
    (fun (st : Option String × List (String × Nat)) arg =>
      match arg with
      | none => st
      | some name =>
        (if st.1 = some name then none else st.1, scopeInsert st.2 name 0))
    (some function_name, current_scope_vars)
  { module_name := module_name
    function_name := st.1
    function_arguments := function_arguments
    current_scope_vars := st.2
    function_position := .Tail
    scope_position := .Tail
    tail_recursion_used := false }

/-- `Generator::local_var` of `expression.rs`: an unseen name is inserted
at counter 0 and rendered through the identifier policy; counter 0 renders
through the policy; counter `n > 0` renders `name$n`. -/
def ExprGen.local_var (g : ExprGen) (name : String) : Doc × ExprGen :=
  match scopeGet g.current_scope_vars name with
  | none =>
    (maybe_escape_identifier_doc name,
      { g with current_scope_vars := scopeInsert g.current_scope_vars name 0 })
  | some 0 => (maybe_escape_identifier_doc name, g)
  | some n => (.text (name ++ "$" ++ toString n), g)

/-- `Generator::variable` of `expression.rs`: module functions, module
constants and local variables lower through `local_var`; every other
constructor variant hits a `todo!`. -/
def ExprGen.variable_ (g : ExprGen) (name : String)
    (constructor : ValueConstructorVariant) :
    Except GenError (Doc × ExprGen) :=
  match constructor with
  | .ModuleFn => .ok (g.local_var name)
  | .ModuleConstant => .ok (g.local_var name)
  | .LocalVariable => .ok (g.local_var name)
  | .OtherVariant =>
    .error (.Todo "Python doesn't know how to handle variable yet")

/-- `string` of `expression.rs`: escape literal newlines to the
two-character sequence backslash-n when any are present, and wrap in double
quotes.  Rust `value.replace('\n', "\\n")` is embedded character by
character, and `value.contains('\n')` as membership in the character
list. -/
def replaceNewlines (s : String) : String :=
  ⟨s.toList.flatMap fun c => if c = '\n' then ['\\', 'n'] else [c]⟩

/-- `string` of `expression.rs` (the string-literal lowering). -/
def string (value : String) : Doc :=
  if value.toList.contains '\n' then
    (Doc.text (replaceNewlines value)).surround "\"" "\""
  else
    (Doc.text value).surround "\"" "\""

/-- `call_arguments` of `expression.rs`: intersperse the argument documents
with comma breaks; an empty result renders `()`; otherwise a grouped,
nested, trailing-comma-when-broken parenthesized list. -/
def call_arguments (elements : List (Except GenError Doc)) :
    Except GenError Doc := do
  let docs ← exceptCollect (elements.intersperse (.ok (.break_ "," ", ")))
  let elements := Doc.concat docs
  if elements.is_empty then
    .ok (.text "()")
  else
    .ok ((Doc.concat [.text "(",
      (Doc.concat [.break_ "" "", elements]).nest INDENT,
      .break_ "," "", .text ")"]).group)

/-- `Generator::call_with_doc_args` of `expression.rs`: only a `Var` callee
is supported; `self.expression(fun)` on that `Var` is exactly
`self.variable(name, constructor)`, inlined here to keep the recursion
structural; any other callee hits a `todo!`. -/
def call_with_doc_args (g : ExprGen) (f : TypedExpr)
    (arguments : List Doc) : Except GenError (Doc × ExprGen) :=
  match f with
  | .Var name constructor => do
    let (fun_doc, g1) ← g.variable_ name constructor
    let arguments_doc ← call_arguments (arguments.map Except.ok)
    .ok (Doc.concat [fun_doc, arguments_doc], g1)
  | _ => .error (.Todo "function type not supported in python yet")

mutual

/-- `Generator::expression` of `expression.rs`.  The `Call` arm inlines
`Generator::call`: lower the argument values left to right
(`try_collect`), then `call_with_doc_args` on the callee.  Every
unsupported expression form hits a `todo!`. -/
def expression (g : ExprGen) : TypedExpr → Except GenError (Doc × ExprGen)
  | .Str value => .ok (string value, g)
  | .Call f args => do
    let (docs, g1) ← exprListG g args
    call_with_doc_args g1 f docs
  | .Var name constructor => g.variable_ name constructor
  | .OtherExpr => .error (.Todo "Python doesn't support this expression yet")

/-- Lowering of a call's argument expressions left to right, threading the
generator state (`arguments.iter().map(...).try_collect()`). -/
def exprListG (g : ExprGen) : List TypedExpr →
    Except GenError (List Doc × ExprGen)
  | [] => .ok ([], g)
  | e :: es => do
    let (d, g1) ← expression g e
    let (ds, g2) ← exprListG g1 es
    .ok (d :: ds, g2)

end

/-- `Generator::statement` of `expression.rs`: expression statements lower
through `expression`; assignments and `use` hit a `todo!`. -/
def statementE (g : ExprGen) : Statement → Except GenError (Doc × ExprGen)
  | .Expression e => expression g e
  | .Assignment => .error (.Todo "Python assignments not supported yet")
  | .Use => .error (.Todo "Python Use not supported yet")

/-- The document list built by the loop in `Generator::statements`: each
statement's document followed by `pretty::line()`. -/
def statementsAux (g : ExprGen) : List Statement →
    Except GenError (List Doc × ExprGen)
  | [] => .ok ([], g)
  | s :: rest => do
    let (d, g1) ← statementE g s
    let (ds, g2) ← statementsAux g1 rest
    .ok (d :: Doc.line 1 :: ds, g2)

/-- `Generator::statements` of `expression.rs`: a single-statement body may
render inline; a multi-statement body is force-broken. -/
def statementsE (g : ExprGen) (stmts : List Statement) :
    Except GenError (Doc × ExprGen) := do
  let (documents, g1) ← statementsAux g stmts
  if stmts.length = 1 then
    .ok (Doc.concat documents, g1)
  else
    .ok ((Doc.concat documents).forceBreak, g1)

/-- `Generator::function_body` of `expression.rs`: currently exactly
`statements` (the tail-call loop wrapper is commented out in the
source); the argument list is accepted and unused. -/
def function_body (g : ExprGen) (body : List Statement) (args : List Arg) :
    Except GenError (Doc × ExprGen) :=
  let _ := args
  statementsE g body

/-- `wrap_args` of `python.rs`: a grouped, nested, parenthesized,
comma-break-joined argument list. -/
def wrap_args (args : List Doc) : Doc :=
  ((Doc.concat [(Doc.concat [.break_ "" "",
      Doc.concat (args.intersperse (.break_ "," ", "))]).nest INDENT,
    .break_ "" ""]).surround "(" ")").group

/-- The per-argument documents of `fun_args` in `python.rs`, with the
running count of discards already seen to the left (the source's mutable
`discards` counter): the first discard renders `_`, the k-th subsequent
discard renders `_k`; a named argument renders `loop$name` when tail
recursion was used and through the identifier policy otherwise. -/
def fun_args_docs : List Arg → Bool → Nat → List Doc
  | [], _, _ => []
  | a :: rest, tail_recursion_used, discards =>
    match a.get_variable_name with
    | none =>
      (if discards = 0 then Doc.text "_"
       else Doc.text ("_" ++ toString discards)) ::
        fun_args_docs rest tail_recursion_used (discards + 1)
    | some name =>
      (if tail_recursion_used then Doc.text ("loop$" ++ name)
       else maybe_escape_identifier_doc name) ::
        fun_args_docs rest tail_recursion_used discards

/-- `fun_args` of `python.rs`: the wrapped argument list, with the discard
counter starting at 0. -/
def fun_args (args : List Arg) (tail_recursion_used : Bool) : Doc :=
  wrap_args (fun_args_docs args tail_recursion_used 0)

/-- `Generator` of `python.rs` (the module-level generator; the
`line_numbers` reference is read by none of the embedded paths and is
omitted). -/
structure ModGen where
  module : Module
  module_scope : List (String × Nat)
  current_module_name_segments_count : Nat
  target_support : TargetSupport

/-- `Generator::new` of `python.rs`: empty module scope, the segment count
of the module's own name, and the given target-support mode. -/
def ModGen.new (module : Module) (target_support : TargetSupport) : ModGen :=
  { module := module
    module_scope := []
    current_module_name_segments_count := (splitChar '/' module.name).length
    target_support := target_support }

/-- `Generator::module_function` of `python.rs`.  The `.expect` on a
nameless module function is embedded as a `Todo` failure.  The `head`
keyword is `"def "` on both publicity branches, as in the source.  The body
is lowered first; a body failure that `is_unsupported` under non-enforced
target support yields `none` (no definition), any other failure is
returned; on success the header, escaped name, argument list (consulting
`tail_recursion_used` as left by the body traversal) and nested body are
concatenated. -/
def module_function (g : ModGen) (function : Function) :
    Option (Except GenError Doc) :=
  match function.name with
  | none => some (.error (.Todo "A module's function must be named"))
  | some name =>
    let argument_names := function.arguments.map Arg.get_variable_name
    let generator := ExprGen.new g.module.name name argument_names
      g.module_scope
    let head := if function.publicity.is_private then "def " else "def "
    match function_body generator function.body function.arguments with
    | .ok (body, generator1) =>
      some (.ok (Doc.concat [.text head, maybe_escape_identifier_doc name,
        fun_args function.arguments generator1.tail_recursion_used,
        .text ":",
        ((Doc.concat [.line 1, body]).nest INDENT).group,
        .line 1]))
    | .error e =>
      if e.is_unsupported && !g.target_support.is_enforced then none
      else some (.error e)

/-- `Generator::statement` of `python.rs` (the definition selector):
type aliases, imports, custom types and module constants produce nothing;
a function with a foreign `external_python` binding produces nothing; a
function whose implementations do not support the Python target produces
nothing; otherwise `module_function`. -/
def statementD (g : ModGen) (d : Definition) : Option (Except GenError Doc) :=
  match d with
  | .TypeAlias => none
  | .Import _ => none
  | .CustomType => none
  | .ModuleConstant => none
  | .Function function =>
    if function.external_python.isSome then none
    else if !function.supports_python then none
    else module_function g function

/-- The fold of `Generator::collect_imports` in `python.rs` over the
definition list: explicit imports go through `register_import`; a function
carrying both a name and an `external_python` binding goes through
`register_external_function`; everything else registers nothing. -/
def collectImportsAux (t : Imports) : List Definition →
    Except GenError Imports
  | [] => .ok t
  | d :: rest =>
    match d with
    | .Import i => do
      let t1 ← register_import t i.module i.as_name i.unqualified_values
      collectImportsAux t1 rest
    | .Function f =>
      match f.name, f.external_python with
      | some name, some (module, function) =>
        collectImportsAux
          (register_external_function t f.publicity name module function) rest
      | _, _ => collectImportsAux t rest
    | _ => collectImportsAux t rest

/-- `Generator::collect_imports` of `python.rs`: one pass over the
definitions starting from the empty table. -/
def collect_imports (g : ModGen) : Except GenError Imports :=
  collectImportsAux Imports.new g.module.definitions

/-- `Generator::compile` of `python.rs`: collect imports, lower the
definitions in order keeping those that produce output (`flat_map`),
intersperse with two-line separators, `try_collect`, and concatenate
the import block with the definitions. -/
def compile (g : ModGen) : Except GenError Doc := do
  let imports ← collect_imports g
  let statements := (g.module.definitions.map (statementD g)).reduceOption
  let statements ← exceptCollect (statements.intersperse (.ok (.line 2)))
  let importsDoc ← imports.into_doc
  .ok (Doc.concat [importsDoc, Doc.concat statements])

/-- `crate::Error::Python` as built by the `module` entry point: the
originating file path, the source text and the lowering error. -/
structure PythonError where
  path : String
  src : String
  error : GenError
deriving DecidableEq

/-- The `module` entry point of `python.rs`, up to the final call into the
external layout engine (`to_pretty_string(80)`): compile the module and
wrap any error with the file path and source text. -/
def moduleDoc (module : Module) (path : String) (src : String)
    (target_support : TargetSupport) : Except PythonError Doc :=
  match compile (ModGen.new module target_support) with
  | .ok d => .ok d
  | .error e => .error ⟨path, src, e⟩

/-! ### Shared lemmas -/

theorem exceptCollect_map_ok (l : List Doc) :
    exceptCollect (l.map Except.ok) = .ok l := by
  induction l with
  | nil => rfl
  | cons d ds ih => simp [exceptCollect, ih, List.map, Bind.bind, Except.bind]

theorem exceptCollect_intersperse_ok (l : List Doc) (sep : Doc) :
    exceptCollect ((l.map Except.ok).intersperse (.ok sep)) =
      .ok (l.intersperse sep) := by
  induction l with
  | nil => rfl
  | cons d ds ih =>
    cases ds with
    | nil => rfl
    | cons e es =>
      simp only [List.map, List.intersperse] at ih ⊢
      simp [exceptCollect, ih, Bind.bind, Except.bind]

/-- `call_arguments` cannot fail when every element is already a success
(as in `call_with_doc_args`, which feeds it `arguments.into_iter().map(Ok)`). -/
theorem call_arguments_map_ok (ds : List Doc) (err : GenError) :
    call_arguments (ds.map Except.ok) ≠ .error err := by
  simp only [call_arguments, exceptCollect_intersperse_ok, Bind.bind,
    Except.bind]
  split <;> simp

/-- `Generator::variable` fails only with a `Todo` (a `todo!` panic), never
with an `Error::Unsupported`. -/
theorem variable_error_todo (g : ExprGen) (n : String)
    (c : ValueConstructorVariant) (err : GenError)
    (h : g.variable_ n c = .error err) : err.is_unsupported = false := by
  cases c
  case OtherVariant => cases h; rfl
  all_goals simp [ExprGen.variable_] at h

/-- `call_with_doc_args` fails only with a `Todo`, never with an
`Error::Unsupported`. -/
theorem call_with_doc_args_error_todo (g : ExprGen) (f : TypedExpr)
    (ds : List Doc) (err : GenError)
    (h : call_with_doc_args g f ds = .error err) :
    err.is_unsupported = false := by
  cases f with
  | Var n c =>
    simp only [call_with_doc_args, Bind.bind, Except.bind] at h
    cases hv : g.variable_ n c with
    | error e2 =>
      rw [hv] at h
      cases h
      exact variable_error_todo g n c err hv
    | ok p =>
      rw [hv] at h
      cases hc : call_arguments (ds.map Except.ok) with
      | error e3 => exact absurd hc (call_arguments_map_ok ds e3)
      | ok d2 => rw [hc] at h; cases h
  | Str v => cases h; rfl
  | Call f2 a2 => cases h; rfl
  | OtherExpr => cases h; rfl

mutual

/-- Expression lowering fails only with a `Todo` (a `todo!` panic): no path
in `expression.rs` constructs an `Error::Unsupported`. -/
theorem expression_error_todo (g : ExprGen) (e : TypedExpr) (err : GenError)
    (h : expression g e = .error err) : err.is_unsupported = false := by
  cases e with
  | Str v => simp [expression] at h
  | Var n c => exact variable_error_todo g n c err h
  | OtherExpr => cases h; rfl
  | Call f args =>
    simp only [expression, Bind.bind, Except.bind] at h
    cases hl : exprListG g args with
    | error e2 =>
      rw [hl] at h; cases h
      exact exprListG_error_todo g args err hl
    | ok p =>
      rw [hl] at h
      dsimp only at h
      exact call_with_doc_args_error_todo p.2 f p.1 err h

/-- Argument-list lowering fails only with a `Todo`. -/
theorem exprListG_error_todo (g : ExprGen) (l : List TypedExpr)
    (err : GenError) (h : exprListG g l = .error err) :
    err.is_unsupported = false := by
  cases l with
  | nil => simp [exprListG] at h
  | cons e es =>
    simp only [exprListG, Bind.bind, Except.bind] at h
    cases he : expression g e with
    | error e2 =>
      rw [he] at h; cases h
      exact expression_error_todo g e err he
    | ok p =>
      rw [he] at h
      dsimp only at h
      cases hl : exprListG p.2 es with
      | error e3 =>
        rw [hl] at h; cases h
        exact exprListG_error_todo p.2 es err hl
      | ok q => rw [hl] at h; cases h

end

/-- Statement lowering fails only with a `Todo`. -/
theorem statementE_error_todo (g : ExprGen) (s : Statement) (err : GenError)
    (h : statementE g s = .error err) : err.is_unsupported = false := by
  cases s with
  | Expression e => exact expression_error_todo g e err h
  | Assignment => cases h; rfl
  | Use => cases h; rfl

/-- Statement-sequence lowering fails only with a `Todo`. -/
theorem statementsAux_error_todo (g : ExprGen) (l : List Statement)
    (err : GenError) (h : statementsAux g l = .error err) :
    err.is_unsupported = false := by
  induction l generalizing g with
  | nil => simp [statementsAux] at h
  | cons s rest ih =>
    simp only [statementsAux, Bind.bind, Except.bind] at h
    cases hs : statementE g s with
    | error e2 =>
      rw [hs] at h; cases h
      exact statementE_error_todo g s err hs
    | ok p =>
      rw [hs] at h
      dsimp only at h
      cases hr : statementsAux p.2 rest with
      | error e3 =>
        rw [hr] at h; cases h
        exact ih p.2 hr
      | ok q => rw [hr] at h; cases h

/-- `Generator::function_body` fails only with a `Todo` (a panic), never
with an `Error::Unsupported`: the `Unsupported` variant is dead in the
current backend. -/
theorem function_body_error_todo (g : ExprGen) (body : List Statement)
    (args : List Arg) (err : GenError)
    (h : function_body g body args = .error err) :
    err.is_unsupported = false := by
  simp only [function_body, statementsE, Bind.bind, Except.bind] at h
  cases ha : statementsAux g body with
  | error e2 =>
    rw [ha] at h; cases h
    exact statementsAux_error_todo g body err ha
  | ok p =>
    rw [ha] at h
    dsimp only at h
    split at h <;> cases h

/-- `local_var` touches only the scope table: the tail-recursion flag is
unchanged. -/
theorem local_var_flag (g : ExprGen) (n : String) :
    (g.local_var n).2.tail_recursion_used = g.tail_recursion_used := by
  unfold ExprGen.local_var
  split <;> rfl

/-- `variable` leaves the tail-recursion flag unchanged. -/
theorem variable_flag (g : ExprGen) (n : String)
    (c : ValueConstructorVariant) (d : Doc) (g1 : ExprGen)
    (h : g.variable_ n c = .ok (d, g1)) :
    g1.tail_recursion_used = g.tail_recursion_used := by
  cases c
  case OtherVariant => cases h
  all_goals
    have h2 : g.local_var n = (d, g1) := by injection h
    have h3 : g1 = (g.local_var n).2 := by rw [h2]
    rw [h3]
    exact local_var_flag g n

/-- `call_with_doc_args` leaves the tail-recursion flag unchanged. -/
theorem call_with_doc_args_flag (g : ExprGen) (f : TypedExpr)
    (ds : List Doc) (d : Doc) (g1 : ExprGen)
    (h : call_with_doc_args g f ds = .ok (d, g1)) :
    g1.tail_recursion_used = g.tail_recursion_used := by
  cases f with
  | Var n c =>
    simp only [call_with_doc_args, Bind.bind, Except.bind] at h
    cases hv : g.variable_ n c with
    | error e2 => rw [hv] at h; cases h
    | ok p =>
      rw [hv] at h
      dsimp only at h
      cases hc : call_arguments (ds.map Except.ok) with
      | error e3 => rw [hc] at h; cases h
      | ok d2 =>
        rw [hc] at h
        cases h
        exact variable_flag g n c p.1 p.2 (by rw [hv])
  | Str v => cases h
  | Call f2 a2 => cases h
  | OtherExpr => cases h

mutual

/-- No expression-lowering path writes `tail_recursion_used`: a successful
lowering returns it exactly as it started. -/
theorem expression_flag (g : ExprGen) (e : TypedExpr) (d : Doc)
    (g1 : ExprGen) (h : expression g e = .ok (d, g1)) :
    g1.tail_recursion_used = g.tail_recursion_used := by
  cases e with
  | Str v => cases h; rfl
  | Var n c => exact variable_flag g n c d g1 h
  | OtherExpr => cases h
  | Call f args =>
    simp only [expression, Bind.bind, Except.bind] at h
    cases hl : exprListG g args with
    | error e2 => rw [hl] at h; cases h
    | ok p =>
      rw [hl] at h
      dsimp only at h
      have h1 := exprListG_flag g args p.1 p.2 (by rw [hl])
      have h2 := call_with_doc_args_flag p.2 f p.1 d g1 h
      rw [h2, h1]

/-- No argument-list-lowering path writes `tail_recursion_used`. -/
theorem exprListG_flag (g : ExprGen) (l : List TypedExpr) (ds : List Doc)
    (g1 : ExprGen) (h : exprListG g l = .ok (ds, g1)) :
    g1.tail_recursion_used = g.tail_recursion_used := by
  cases l with
  | nil => cases h; rfl
  | cons e es =>
    simp only [exprListG, Bind.bind, Except.bind] at h
    cases he : expression g e with
    | error e2 => rw [he] at h; cases h
    | ok p =>
      rw [he] at h
      dsimp only at h
      cases hl : exprListG p.2 es with
      | error e3 => rw [hl] at h; cases h
      | ok q =>
        rw [hl] at h
        cases h
        have h1 := expression_flag g e p.1 p.2 (by rw [he])
        have h2 := exprListG_flag p.2 es q.1 q.2 (by rw [hl])
        rw [h2, h1]

end

/-- No statement-lowering path writes `tail_recursion_used`. -/
theorem statementE_flag (g : ExprGen) (s : Statement) (d : Doc)
    (g1 : ExprGen) (h : statementE g s = .ok (d, g1)) :
    g1.tail_recursion_used = g.tail_recursion_used := by
  cases s with
  | Expression e => exact expression_flag g e d g1 h
  | Assignment => cases h
  | Use => cases h

/-- No statement-sequence-lowering path writes `tail_recursion_used`. -/
theorem statementsAux_flag (g : ExprGen) (l : List Statement)
    (ds : List Doc) (g1 : ExprGen) (h : statementsAux g l = .ok (ds, g1)) :
    g1.tail_recursion_used = g.tail_recursion_used := by
  induction l generalizing g ds with
  | nil => cases h; rfl
  | cons s rest ih =>
    simp only [statementsAux, Bind.bind, Except.bind] at h
    cases hs : statementE g s with
    | error e2 => rw [hs] at h; cases h
    | ok p =>
      rw [hs] at h
      dsimp only at h
      cases hr : statementsAux p.2 rest with
      | error e3 => rw [hr] at h; cases h
      | ok q =>
        rw [hr] at h
        cases h
        have h1 := statementE_flag g s p.1 p.2 (by rw [hs])
        have h2 := ih p.2 q.1 (by rw [hr])
        rw [h2, h1]

/-- `Generator::function_body` never sets `tail_recursion_used`: the flag
comes back exactly as `Generator::new` initialised it. -/
theorem function_body_flag (g : ExprGen) (body : List Statement)
    (args : List Arg) (d : Doc) (g1 : ExprGen)
    (h : function_body g body args = .ok (d, g1)) :
    g1.tail_recursion_used = g.tail_recursion_used := by
  simp only [function_body, statementsE, Bind.bind, Except.bind] at h
  cases ha : statementsAux g body with
  | error e2 => rw [ha] at h; cases h
  | ok p =>
    rw [ha] at h
    dsimp only at h
    have h1 := statementsAux_flag g body p.1 p.2 (by rw [ha])
    split at h <;> (cases h; exact h1)

/-- `expression::Generator::new` starts with the flag down. -/
theorem new_flag (m f : String) (args : List (Option String))
    (scope : List (String × Nat)) :
    (ExprGen.new m f args scope).tail_recursion_used = false := rfl

/-- `module_function` never returns `None`: its only `None` branch demands
a body failure with `is_unsupported`, and no lowering failure is ever an
`Error::Unsupported` (the catch is dead code). -/
theorem module_function_isSome (g : ModGen) (f : Function) :
    (module_function g f).isSome = true := by
  unfold module_function
  cases hn : f.name with
  | none => rfl
  | some name =>
    dsimp only
    cases hb : function_body
        (ExprGen.new g.module.name name (f.arguments.map Arg.get_variable_name)
          g.module_scope) f.body f.arguments with
    | ok p => rfl
    | error e =>
      dsimp only
      rw [function_body_error_todo _ _ _ _ hb]
      rfl

/-- The retention condition of spec §4.1, stated from the claim's words: a
`Function` with no foreign implementation binding for this target whose
capability set includes this target; never any other definition kind. -/
def retained (d : Definition) : Bool :=
  match d with
  | .Function f => !f.external_python.isSome && f.supports_python
  | _ => false

/-- The definition selector agrees exactly with the retention condition. -/
theorem statementD_isSome (g : ModGen) (d : Definition) :
    (statementD g d).isSome = retained d := by
  cases d with
  | Function f =>
    unfold statementD retained
    dsimp only
    cases he : f.external_python with
    | some p => simp [he]
    | none =>
      cases hs : f.supports_python with
      | false => simp [he, hs]
      | true => simp [he, hs, module_function_isSome]
  | Import i => rfl
  | CustomType => rfl
  | TypeAlias => rfl
  | ModuleConstant => rfl

/-- The ordered sequence of definition outputs that `compile` emits
(`flat_map` over `Generator::statement`). -/
def emittedFor (g : ModGen) (defs : List Definition) :
    List (Except GenError Doc) :=
  (defs.map (statementD g)).reduceOption

theorem emittedFor_filter (g : ModGen) (defs : List Definition) :
    emittedFor g defs =
      (defs.filter (fun d => retained d)).filterMap (statementD g) := by
  induction defs with
  | nil => rfl
  | cons d rest ih =>
    cases hb : retained d with
    | true =>
      have hs : (statementD g d).isSome = true := by
        rw [statementD_isSome, hb]
      obtain ⟨out, hout⟩ := Option.isSome_iff_exists.mp hs
      simp only [emittedFor, List.map_cons, List.filter_cons, hb, if_true,
        List.filterMap_cons, hout, List.reduceOption_cons_of_some] at ih ⊢
      rw [ih]
    | false =>
      have hs : statementD g d = none := by
        have h1 := statementD_isSome g d
        rw [hb] at h1
        exact Option.not_isSome_iff_eq_none.mp (by simp [h1])
      simp only [emittedFor, List.map_cons, List.filter_cons, hb,
        List.filterMap_cons, hs, List.reduceOption_cons_of_none,
        if_false, Bool.false_eq_true] at ih ⊢
      rw [ih]

theorem emittedFor_length (g : ModGen) (defs : List Definition) :
    (emittedFor g defs).length =
      (defs.filter (fun d => retained d)).length := by
  rw [emittedFor_filter]
  have key : ∀ l : List Definition, (∀ d ∈ l, retained d = true) →
      (l.filterMap (statementD g)).length = l.length := by
    intro l
    induction l with
    | nil => intro _; rfl
    | cons d rest ih =>
      intro hmem
      have hs : (statementD g d).isSome = true := by
        rw [statementD_isSome]
        exact hmem d (by simp)
      obtain ⟨out, hout⟩ := Option.isSome_iff_exists.mp hs
      simp [List.filterMap, hout, ih (fun x hx => hmem x (by simp [hx]))]
  exact key _ fun d hd => (List.mem_filter.mp hd).2

/-- Interspersing separators keeps every original element in the list. -/
theorem mem_intersperse {α : Type} (sep x : α) (l : List α) (h : x ∈ l) :
    x ∈ l.intersperse sep := by
  induction l with
  | nil => cases h
  | cons a rest ih =>
    cases rest with
    | nil => simpa using h
    | cons b bs =>
      rw [List.intersperse_cons_cons]
      rcases List.mem_cons.mp h with h1 | h1
      · simp [h1]
      · have := ih h1
        simp only [List.mem_cons] at this ⊢
        tauto

/-- If `try_collect` succeeds, every collected element was a success. -/
theorem exceptCollect_ok_mem (l : List (Except GenError Doc))
    (as_ : List Doc) (h : exceptCollect l = .ok as_)
    (x : Except GenError Doc) (hx : x ∈ l) : ∃ a, x = .ok a := by
  induction l generalizing as_ with
  | nil => cases hx
  | cons y ys ih =>
    simp only [exceptCollect, Bind.bind, Except.bind] at h
    cases hy : y with
    | error e => rw [hy] at h; cases h
    | ok a =>
      rw [hy] at h
      dsimp only at h
      cases hc : exceptCollect ys with
      | error e => rw [hc] at h; cases h
      | ok bs =>
        rw [hc] at h
        rcases List.mem_cons.mp hx with h1 | h1
        · exact ⟨a, by rw [h1, hy]⟩
        · exact ih bs hc h1

/-- When `compile` succeeds, every retained definition actually delivered a
rendered document (its `statement` output collected without error). -/
theorem compile_ok_retained (g : ModGen) (doc : Doc)
    (h : compile g = .ok doc) (d : Definition)
    (hd : d ∈ g.module.definitions) (hr : retained d = true) :
    ∃ a, statementD g d = some (.ok a) := by
  have hs : (statementD g d).isSome = true := by rw [statementD_isSome, hr]
  obtain ⟨out, hout⟩ := Option.isSome_iff_exists.mp hs
  simp only [compile, Bind.bind, Except.bind] at h
  cases hi : collect_imports g with
  | error e => rw [hi] at h; cases h
  | ok t =>
    rw [hi] at h
    dsimp only at h
    cases hc : exceptCollect
        (((g.module.definitions.map (statementD g)).reduceOption).intersperse
          (.ok (.line 2))) with
    | error e => rw [hc] at h; cases h
    | ok stmts =>
      rw [hc] at h
      have hmem : out ∈ (g.module.definitions.map (statementD g)).reduceOption := by
        rw [List.reduceOption_mem_iff]
        rw [← hout]
        exact List.mem_map_of_mem (statementD g) hd
      obtain ⟨a, ha⟩ := exceptCollect_ok_mem _ stmts hc out
        (mem_intersperse _ _ _ hmem)
      exact ⟨a, by rw [hout, ha]⟩

/-! ### Claim theorems -/

/-- The expression generator for a module function `f` with no parameters
(so nothing shadows the function's own name). -/
def selfTailGen : ExprGen := ExprGen.new "mod" "f" [] []

/-- The body `f()`: a single expression statement — hence in tail position —
calling the enclosing function's own name. -/
def selfTailBody : List Statement := [.Expression (.Call (.Var "f" .ModuleFn) [])]

/-- The successful lowering result of that body. -/
def selfTailResult : Doc × ExprGen :=
  match function_body selfTailGen selfTailBody [] with
  | .ok p => p
  | .error _ => (.text "", selfTailGen)

/-- C2: the claim says a tail call of the enclosing function's unshadowed
own name sets `tail_recursion_used`.  The code never writes that flag: no
lowering path changes it (first conjunct), and on the concrete body
`f() ` inside function `f` — tail position, own name, unshadowed
(`function_name` still `some "f"`) — lowering succeeds with the flag still
`false` where the claim demands `true`. -/
theorem tail_recursion_flag_never_set :
    (∀ (g : ExprGen) (body : List Statement) (args : List Arg)
       (d : Doc) (g1 : ExprGen), function_body g body args = .ok (d, g1) →
       g1.tail_recursion_used = g.tail_recursion_used) ∧
    selfTailGen.function_name = some "f" ∧
    (function_body selfTailGen selfTailBody []).toOption.map
      (fun p => p.2.tail_recursion_used) = some false :=
  ⟨function_body_flag, rfl, rfl⟩

/-- C2 witness: the flag-preservation conjunct applied at the concrete
self-tail-call body, its success hypothesis discharged by evaluation. -/
theorem tail_recursion_flag_never_set_witness :
    function_body selfTailGen selfTailBody [] = .ok selfTailResult ∧
    selfTailResult.2.tail_recursion_used = selfTailGen.tail_recursion_used :=
  ⟨rfl, tail_recursion_flag_never_set.1 selfTailGen selfTailBody []
    selfTailResult.1 selfTailResult.2 rfl⟩

/-- A retained function with a fully supported body (`"hi"`). -/
def c3FOk : Function := ⟨some "go", .Public, [], none, true, [.Expression (.Str "hi")]⟩

/-- A function with a foreign implementation binding (never retained). -/
def c3FExt : Function := ⟨some "ext", .Public, [], some ("m", "x"), true, []⟩

/-- A small module exercising the definition selector. -/
def c3Gen : ModGen :=
  ModGen.new ⟨"mod", [.Function c3FOk, .TypeAlias]⟩ .Enforced

/-- The document `compile` produces for that module. -/
def c3Doc : Doc :=
  match compile c3Gen with
  | .ok d => d
  | .error _ => .text ""

/-- C3: a definition's `statement` output is `Some` exactly when it is a
`Function` with no `external_python` binding whose implementations support
the Python target (`retained`); `Import`, `CustomType`, `TypeAlias` and
`ModuleConstant` are never retained; the emitted outputs are exactly the
retained definitions' outputs, one each, in original definition order
(`filter`/`filterMap` over the unchanged list); and when `compile`
succeeds, every retained definition delivered a rendered document. -/
theorem retained_definitions_exactly :
    (∀ (g : ModGen) (d : Definition), (statementD g d).isSome = retained d) ∧
    (∀ (g : ModGen) (defs : List Definition),
      emittedFor g defs =
        (defs.filter (fun d => retained d)).filterMap (statementD g) ∧
      (emittedFor g defs).length =
        (defs.filter (fun d => retained d)).length) ∧
    (∀ (g : ModGen) (doc : Doc), compile g = .ok doc →
      ∀ d ∈ g.module.definitions, retained d = true →
        ∃ a, statementD g d = some (.ok a)) :=
  ⟨statementD_isSome,
   fun g defs => ⟨emittedFor_filter g defs, emittedFor_length g defs⟩,
   fun g doc h d hd hr => compile_ok_retained g doc h d hd hr⟩

/-- C3 witness: on the concrete module, `compile` succeeds, the retained
function delivered a document, and the foreign-bound function is not
retained. -/
theorem retained_definitions_exactly_witness :
    compile c3Gen = .ok c3Doc ∧
    (∃ a, statementD c3Gen (.Function c3FOk) = some (.ok a)) ∧
    (statementD c3Gen (.Function c3FExt)).isSome = retained (.Function c3FExt) :=
  ⟨rfl,
   retained_definitions_exactly.2.2 c3Gen c3Doc rfl (.Function c3FOk)
     (by simp [c3Gen, ModGen.new]) rfl,
   retained_definitions_exactly.1 c3Gen (.Function c3FExt)⟩

/-- A function whose body is a bare assignment — a construct with no
lowering rule. -/
def c7Function : Function := ⟨some "main", .Public, [], none, true, [.Assignment]⟩

/-- The module generator for that function under `Optional`
(non-enforced) target support. -/
def c7Gen : ModGen := ModGen.new ⟨"mod", [.Function c7Function]⟩ .NotEnforced

/-- The expression generator `module_function` builds for `c7Function`. -/
def c7ExprGen : ExprGen := ExprGen.new "mod" "main" [] []

/-- C7: the claim describes the handling of a body failure carrying an
`Unsupported` error, but the backend can never produce one: every lowering
failure is a `todo!` panic (fourth conjunct), so on a function whose body
has no lowering rule, even under non-enforced (`Optional`) support the
function is not silently skipped — `statement` yields the propagated panic
(not `None`) and the whole compilation aborts. -/
theorem unsupported_error_is_dead :
    statementD c7Gen (.Function c7Function) =
      some (.error (.Todo "Python assignments not supported yet")) ∧
    (GenError.Todo "Python assignments not supported yet").is_unsupported
      = false ∧
    compile c7Gen = .error (.Todo "Python assignments not supported yet") ∧
    (∀ (g : ExprGen) (body : List Statement) (args : List Arg)
       (err : GenError), function_body g body args = .error err →
       err.is_unsupported = false) :=
  ⟨rfl, rfl, rfl, function_body_error_todo⟩

/-- C7 witness: the no-`Unsupported` conjunct applied at the concrete
assignment body, its failure hypothesis discharged by evaluation. -/
theorem unsupported_error_is_dead_witness :
    (GenError.Todo "Python assignments not supported yet").is_unsupported
      = false :=
  unsupported_error_is_dead.2.2.2 c7ExprGen [.Assignment] []
    (.Todo "Python assignments not supported yet") rfl

/-- C4: identifiers equal to a reserved word of the fixed closed set render
with the single trailing marker `_` appended; identifiers not in the set
render unchanged; and the identifier-producing sites route through this
policy: the function-name site in `module_function`, the named-parameter
site in `fun_args`, and the imported-member-name site in
`register_import`. -/
theorem reserved_word_escaping :
    (∀ w ∈ pythonKeywords, is_usable_python_identifier w = false ∧
       maybe_escape_identifier_doc w = .text (w ++ "_")) ∧
    (∀ w, w ∉ pythonKeywords → is_usable_python_identifier w = true ∧
       maybe_escape_identifier_doc w = .text w) ∧
    (∀ (w : String) (g : ModGen),
       module_function g ⟨some w, .Public, [], none, true,
           [.Expression (.Str "x")]⟩ =
         some (.ok (Doc.concat [.text "def ", maybe_escape_identifier_doc w,
           fun_args [] false, .text ":",
           ((Doc.concat [.line 1,
             Doc.concat [string "x", .line 1]]).nest INDENT).group,
           .line 1]))) ∧
    (∀ w : String, fun_args [⟨some w⟩] false =
       wrap_args [maybe_escape_identifier_doc w]) ∧
    (∀ (t : Imports) (w : String), register_import t "m" none [⟨w, none⟩] =
       .ok (t.register_module "m" [⟨maybe_escape_identifier_doc w, none⟩])) := by
  refine ⟨?_, ?_, ?_, ?_, ?_⟩
  · intro w hw
    have hc : pythonKeywords.contains w = true := by
      rw [List.contains_iff_exists_mem_beq]
      exact ⟨w, hw, by simp⟩
    have h1 : is_usable_python_identifier w = false := by
      unfold is_usable_python_identifier
      rw [hc]
      rfl
    refine ⟨h1, ?_⟩
    simp only [maybe_escape_identifier_doc, h1, Bool.false_eq_true,
      if_false, escape_identifier]
  · intro w hw
    have hc : pythonKeywords.contains w = false := by
      cases hb : pythonKeywords.contains w with
      | false => rfl
      | true =>
        obtain ⟨a, ha, hab⟩ := List.contains_iff_exists_mem_beq.mp hb
        have : w = a := by simpa using hab
        exact absurd (this ▸ ha) hw
    have h1 : is_usable_python_identifier w = true := by
      unfold is_usable_python_identifier
      rw [hc]
      rfl
    refine ⟨h1, ?_⟩
    simp only [maybe_escape_identifier_doc, h1, if_true]
  · intro w g
    rfl
  · intro w
    rfl
  · intro t w
    rfl

/-- C4 witness: the policy applied to the reserved word `class` and the
ordinary word `hello`. -/
theorem reserved_word_escaping_witness :
    maybe_escape_identifier_doc "class" = .text ("class" ++ "_") ∧
    maybe_escape_identifier_doc "hello" = .text "hello" :=
  ⟨(reserved_word_escaping.1 "class" (by decide)).2,
   (reserved_word_escaping.2.1 "hello" (by decide)).2⟩

/-- The discard rendering of spec §4.4, stated from the claim's words: the
k-th discard of a parameter list (0-based) renders `_` for k = 0 and `_k`
for k = 1, 2, …. -/
def discardName (k : Nat) : String :=
  if k = 0 then "_" else "_" ++ toString k

/-- The number of discard parameters strictly before index `i`. -/
def discardsBefore (args : List Arg) (i : Nat) : Nat :=
  ((args.take i).filter fun a => a.get_variable_name = none).length

theorem fun_args_docs_length (args : List Arg) (tr : Bool) (d : Nat) :
    (fun_args_docs args tr d).length = args.length := by
  induction args generalizing d with
  | nil => rfl
  | cons a rest ih =>
    unfold fun_args_docs
    cases a.get_variable_name <;> simp [ih]

theorem discardsBefore_cons_discard (a : Arg) (rest : List Arg) (j : Nat)
    (ha : a.get_variable_name = none) :
    discardsBefore (a :: rest) (j + 1) = discardsBefore rest j + 1 := by
  simp [discardsBefore, List.take_succ_cons, List.filter_cons, ha]

theorem discardsBefore_cons_named (a : Arg) (rest : List Arg) (j : Nat)
    (nm : String) (ha : a.get_variable_name = some nm) :
    discardsBefore (a :: rest) (j + 1) = discardsBefore rest j := by
  simp [discardsBefore, List.take_succ_cons, List.filter_cons, ha]

theorem fun_args_docs_discard (args : List Arg) (tr : Bool) (d i : Nat)
    (h : i < args.length) (hd : ∃ hi : i < args.length,
      (args.get ⟨i, hi⟩).get_variable_name = none) :
    (fun_args_docs args tr d)[i]? =
      some (.text (discardName (d + discardsBefore args i))) := by
  obtain ⟨hi, hdis⟩ := hd
  induction args generalizing d i with
  | nil => cases h
  | cons a rest ih =>
    cases i with
    | zero =>
      simp only [List.get] at hdis
      unfold fun_args_docs
      rw [hdis]
      have hdoc : (if d = 0 then Doc.text "_"
          else Doc.text ("_" ++ toString d)) = Doc.text (discardName d) := by
        unfold discardName
        split <;> rfl
      have hdb : discardsBefore (a :: rest) 0 = 0 := rfl
      simp only [List.getElem?_cons_zero, hdoc, hdb, Nat.add_zero]
    | succ j =>
      have hj : j < rest.length := by simpa using h
      have hdis2 : (rest.get ⟨j, hj⟩).get_variable_name = none := by
        simpa [List.get] using hdis
      unfold fun_args_docs
      cases ha : a.get_variable_name with
      | none =>
        rw [discardsBefore_cons_discard a rest j ha]
        simp only [List.getElem?_cons_succ]
        rw [ih (d + 1) j hj hj hdis2]
        have harith : d + 1 + discardsBefore rest j =
            d + (discardsBefore rest j + 1) := by omega
        rw [harith]
      | some nm =>
        rw [discardsBefore_cons_named a rest j nm ha]
        simp only [List.getElem?_cons_succ]
        rw [ih d j hj hj hdis2]

/-- C5: in any parameter list the i-th parameter, when it is a discard,
renders as `discardName k` where `k` counts the discards strictly to its
left — `_` for the first discard, `_k` for the k-th subsequent one — in
left-to-right order; the rendering consults no scope table
(`fun_args` takes none), every parameter produces exactly one document,
and `fun_args` wraps exactly these documents. -/
theorem discard_parameters_numbered :
    (∀ (args : List Arg) (tr : Bool) (i : Nat), i < args.length →
       (∃ hi : i < args.length, (args.get ⟨i, hi⟩).get_variable_name = none) →
       (fun_args_docs args tr 0)[i]? =
         some (.text (discardName (discardsBefore args i)))) ∧
    (∀ (args : List Arg) (tr : Bool),
       (fun_args_docs args tr 0).length = args.length ∧
       fun_args args tr = wrap_args (fun_args_docs args tr 0)) := by
  constructor
  · intro args tr i h hd
    have hm := fun_args_docs_discard args tr 0 i h hd
    simpa using hm
  · intro args tr
    exact ⟨fun_args_docs_length args tr 0, rfl⟩

/-- Three unnamed parameters. -/
def threeDiscards : List Arg := [⟨none⟩, ⟨none⟩, ⟨none⟩]

/-- C5 witness: a parameter list of three discards renders them `_`, `_1`,
`_2` in left-to-right order. -/
theorem discard_parameters_numbered_witness :
    (fun_args_docs threeDiscards false 0)[0]? = some (.text "_") ∧
    (fun_args_docs threeDiscards false 0)[1]? = some (.text "_1") ∧
    (fun_args_docs threeDiscards false 0)[2]? = some (.text "_2") :=
  ⟨(discard_parameters_numbered.1 threeDiscards false 0 (by decide)
      ⟨by decide, rfl⟩).trans (by rfl),
   (discard_parameters_numbered.1 threeDiscards false 1 (by decide)
      ⟨by decide, rfl⟩).trans (by rfl),
   (discard_parameters_numbered.1 threeDiscards false 2 (by decide)
      ⟨by decide, rfl⟩).trans (by rfl)⟩

/-- Replacing newlines leaves no newline character behind. -/
theorem replaceNewlines_no_newline (v : String) :
    '\n' ∉ (replaceNewlines v).toList := by
  intro hmem
  have hm : '\n' ∈ v.toList.flatMap
      (fun c => if c = '\n' then ['\\', 'n'] else [c]) := hmem
  rw [List.mem_flatMap] at hm
  obtain ⟨c, hc, hin⟩ := hm
  by_cases h : c = '\n'
  · rw [h] at hin
    exact absurd hin (by decide)
  · rw [if_neg h] at hin
    simp only [List.mem_singleton] at hin
    exact h hin.symm

/-- Replacing newlines in a newline-free string changes nothing. -/
theorem replaceNewlines_id (v : String) (h : '\n' ∉ v.toList) :
    replaceNewlines v = v := by
  unfold replaceNewlines
  have key : ∀ l : List Char, '\n' ∉ l →
      (l.flatMap fun c => if c = '\n' then ['\\', 'n'] else [c]) = l := by
    intro l
    induction l with
    | nil => intro _; rfl
    | cons c cs ih =>
      intro hl
      have hc : ¬ c = '\n' := fun hh =>
        hl (by rw [hh]; exact List.mem_cons_self _ _)
      have hcs : '\n' ∉ cs := fun hh => hl (List.mem_cons_of_mem _ hh)
      simp only [List.flatMap_cons, if_neg hc, ih hcs,
        List.singleton_append]
  rw [key v.toList h]
  rfl

/-- C6: every string literal lowers to a double-quoted single physical
line: its flat text is exactly the value with each literal newline
replaced by the two-character sequence backslash-n, wrapped in double
quotes, and no newline character survives in the rendered literal. -/
theorem string_literal_single_line (v : String) :
    (string v).flatText = "\"" ++ replaceNewlines v ++ "\"" ∧
    '\n' ∉ ((string v).flatText).toList := by
  have hflat : (string v).flatText = "\"" ++ replaceNewlines v ++ "\"" := by
    unfold string
    cases h : v.toList.contains '\n' with
    | true =>
      simp only [if_true]
      simp [Doc.surround, Doc.flatText, Doc.flatTextList, String.append_assoc]
    | false =>
      simp only [Bool.false_eq_true, if_false]
      have hnm : '\n' ∉ v.toList := by
        intro hm
        have he : v.toList.contains '\n' = true := List.elem_eq_true_of_mem hm
        rw [he] at h
        cases h
      rw [replaceNewlines_id v hnm]
      simp [Doc.surround, Doc.flatText, Doc.flatTextList, String.append_assoc]
  refine ⟨hflat, ?_⟩
  rw [hflat]
  intro hmem
  have : '\n' ∈ ("\"" ++ replaceNewlines v ++ "\"").data := hmem
  rw [String.data_append, String.data_append] at this
  rcases List.mem_append.mp this with h1 | h1
  · rcases List.mem_append.mp h1 with h2 | h2
    · exact absurd h2 (by decide)
    · exact replaceNewlines_no_newline v h2
  · exact absurd h1 (by decide)

/-- The chunk accumulator of `splitChar` always delivers at least one
chunk, exactly like Rust's `str::split`. -/
theorem splitCharAux_ne_nil (sep : Char) (l acc : List Char) :
    splitCharAux sep l acc ≠ [] := by
  induction l generalizing acc with
  | nil => simp [splitCharAux]
  | cons c cs ih =>
    unfold splitCharAux
    split
    · simp
    · exact ih _

/-- `str::split` never yields an empty chunk list. -/
theorem splitChar_ne_nil (sep : Char) (s : String) :
    splitChar sep s ≠ [] := by
  unfold splitChar
  intro h
  exact splitCharAux_ne_nil sep s.toList [] (List.map_eq_nil_iff.mp h)

/-- `splitLast` on a nonempty list is the `dropLast`/`getLast`
decomposition (the Rust slice pattern `[parts @ .., module]`). -/
theorem splitLast_eq (l : List String) (h : l ≠ []) :
    splitLast l = some (l.dropLast, l.getLast h) := by
  induction l with
  | nil => exact absurd rfl h
  | cons x xs ih =>
    cases xs with
    | nil => rfl
    | cons y ys =>
      unfold splitLast
      rw [ih (by simp)]
      simp [List.getLast]

/-- C8: the three decision-table rows of the claim.  (a) A multi-segment
path with no alias and no members registers under the dot-joined parent
path one member naming the last segment.  (b) Any path whose alias is a
discard with no members registers nothing.  (c) A single-segment path with
a named alias and no members registers under the empty path one member
whose name is the module and whose alias is the binding name. -/
theorem import_decision_table :
    (∀ (t : Imports) (module p1 p2 : String) (rest : List String),
       splitChar '/' module = p1 :: p2 :: rest →
       register_import t module none [] =
         .ok (t.register_module (joinDot ((p1 :: p2 :: rest).dropLast))
           [⟨Doc.text ((p1 :: p2 :: rest).getLast (by simp)), none⟩])) ∧
    (∀ (t : Imports) (module d : String),
       register_import t module (some (.Discard d)) [] = .ok t) ∧
    (∀ (t : Imports) (module m a : String), splitChar '/' module = [m] →
       register_import t module (some (.Variable a)) [] =
         .ok (t.register_module "" [⟨Doc.text m, some (Doc.text a)⟩])) := by
  refine ⟨?_, ?_, ?_⟩
  · intro t module p1 p2 rest hs
    unfold register_import
    rw [hs]
    dsimp only
    rw [splitLast_eq (p1 :: p2 :: rest) (by simp)]
  · intro t module d
    obtain ⟨p, ps, hs⟩ :=
      List.exists_cons_of_ne_nil (splitChar_ne_nil '/' module)
    unfold register_import
    rw [hs]
    cases ps <;> rfl
  · intro t module m a hs
    unfold register_import
    rw [hs]

/-- C8 witness: the three rows applied to the concrete declarations
equivalent to `gleam/io` (bare), `x as _` (discard) and `m as z`
(aliased single segment). -/
theorem import_decision_table_witness :
    register_import Imports.new "gleam/io" none [] =
      .ok (Imports.new.register_module "gleam" [⟨Doc.text "io", none⟩]) ∧
    register_import Imports.new "x" (some (.Discard "_d")) [] =
      .ok Imports.new ∧
    register_import Imports.new "m" (some (.Variable "z")) [] =
      .ok (Imports.new.register_module "" [⟨Doc.text "m", some (Doc.text "z")⟩]) :=
  ⟨(import_decision_table.1 Imports.new "gleam/io" "gleam" "io" [] rfl).trans
     (by rfl),
   import_decision_table.2.1 Imports.new "x" "_d",
   import_decision_table.2.2 Imports.new "m" "m" "z" rfl⟩

/-- Two functions with foreign implementation bindings to the same module
path `mod` but different foreign symbols. -/
def c1Gen : ModGen :=
  ModGen.new ⟨"me",
    [.Function ⟨some "f", .Public, [], some ("mod", "f"), true, []⟩,
     .Function ⟨some "g", .Public, [], some ("mod", "g"), true, []⟩]⟩ .Enforced

/-- The import table that module builds. -/
def c1Table : Imports :=
  match collect_imports c1Gen with
  | .ok t => t
  | .error _ => Imports.new

/-- C1 counterexample: on the concrete two-function module the table holds
two entries for path `mod` (one member each), and the rendered import block
— one statement per entry, in sorted order — contains two groupings for
that path, not the single consolidated grouping the claim requires. -/
theorem import_table_not_consolidated :
    collect_imports c1Gen = .ok c1Table ∧
    c1Table.imports = [⟨"mod", [⟨Doc.text "f", none⟩]⟩,
      ⟨"mod", [⟨Doc.text "g", none⟩]⟩] ∧
    ¬ (c1Table.sortedEntries.countP (fun e => e.from_ == "mod") = 1) := by
  refine ⟨rfl, rfl, ?_⟩
  have hperm : List.Perm c1Table.sortedEntries c1Table.imports :=
    List.mergeSort_perm _ _
  rw [hperm.countP_eq]
  intro h
  rw [show c1Table.imports.countP (fun e => e.from_ == "mod") = 2 from rfl] at h
  cases h

/-- C1 (amended): `register_module` appends one table entry per
registration with no consolidation and no (name, alias) deduplication: a
module with two functions carrying foreign bindings to one path and two
symbols yields two entries for that path, one member each, and sorting for
rendering preserves the per-path entry count, so the rendered output holds
two import groupings for that path. -/
theorem import_table_entry_per_registration
    (mname path n1 s1 n2 s2 : String) :
    collect_imports (ModGen.new ⟨mname,
        [.Function ⟨some n1, .Public, [], some (path, s1), true, []⟩,
         .Function ⟨some n2, .Public, [], some (path, s2), true, []⟩]⟩
        .Enforced) =
      .ok ⟨[⟨path, [external_member n1 s1]⟩,
            ⟨path, [external_member n2 s2]⟩]⟩ ∧
    (∀ t : Imports, t.sortedEntries.countP (fun e => e.from_ == path) =
      t.imports.countP (fun e => e.from_ == path)) :=
  ⟨rfl, fun t => (List.mergeSort_perm t.imports _).countP_eq _⟩

/-- A table whose two entries share the path `m`: built by two
registrations, as `collect_imports` does for repeated paths. -/
def c9Table : Imports :=
  (Imports.new.register_module "m" [⟨Doc.text "a", none⟩]).register_module
    "m" [⟨Doc.text "b", none⟩]

/-- C9 counterexample: this table's paths are all `m` — one distinct path —
yet rendering emits one statement per entry: two statements for that path,
so "one import statement per path" fails. -/
theorem rendered_statements_per_entry_not_per_path :
    c9Table.imports.map (fun e => e.from_) = ["m", "m"] ∧
    ¬ (c9Table.sortedEntries.countP (fun e => e.from_ == "m") = 1) := by
  refine ⟨rfl, ?_⟩
  have hperm : List.Perm c9Table.sortedEntries c9Table.imports :=
    List.mergeSort_perm _ _
  rw [hperm.countP_eq]
  intro h
  rw [show c9Table.imports.countP (fun e => e.from_ == "m") = 2 from rfl] at h
  cases h

/-- C9 (amended): rendering emits one import statement per table entry
(the sorted entry list has exactly the table's length and exactly its
entries), and the entries are emitted in lexicographically nondecreasing
path order — deterministic for a given table. -/
theorem import_block_sorted_by_path (t : Imports) :
    t.sortedEntries.length = t.imports.length ∧
    List.Perm t.sortedEntries t.imports ∧
    List.Pairwise (fun a b => a.from_ ≤ b.from_) t.sortedEntries := by
  refine ⟨List.length_mergeSort t.imports, List.mergeSort_perm _ _, ?_⟩
  have hp := @List.sorted_mergeSort ImportEntry
    (fun a b : ImportEntry => decide (a.from_ ≤ b.from_))
    (fun a b c hab hbc => by
      simp only [decide_eq_true_eq] at hab hbc ⊢
      exact le_trans hab hbc)
    (fun a b => by
      rcases le_total a.from_ b.from_ with h | h <;> simp [h])
    t.imports
  exact hp.imp fun hab => by simpa using hab

/-- Overwrites the publicity annotation of a definition (only functions
carry one in this embedding). -/
def setPublicity (p : Publicity) : Definition → Definition
  | .Function f => .Function { f with publicity := p }
  | d => d

/-- `module_function` reads neither the publicity nor anything of the
module generator beyond the module name, the module scope and the
target-support mode. -/
theorem module_function_publicity (g1 g2 : ModGen)
    (hname : g1.module.name = g2.module.name)
    (hscope : g1.module_scope = g2.module_scope)
    (hts : g1.target_support = g2.target_support)
    (n : Option String) (p1 p2 : Publicity) (args : List Arg)
    (ext : Option (String × String)) (sup : Bool)
    (body : List Statement) :
    module_function g1 ⟨n, p1, args, ext, sup, body⟩ =
      module_function g2 ⟨n, p2, args, ext, sup, body⟩ := by
  unfold module_function
  cases n with
  | none => rfl
  | some name =>
    dsimp only
    rw [hname, hscope, hts]
    have hhead : (if p1.is_private then "def " else "def ") =
        (if p2.is_private then "def " else "def ") := by
      cases p1 <;> cases p2 <;> rfl
    rw [hhead]

/-- The definition selector is publicity-blind. -/
theorem statementD_publicity (g1 g2 : ModGen)
    (hname : g1.module.name = g2.module.name)
    (hscope : g1.module_scope = g2.module_scope)
    (hts : g1.target_support = g2.target_support)
    (p : Publicity) (d : Definition) :
    statementD g1 (setPublicity p d) = statementD g2 d := by
  cases d with
  | Function f =>
    cases f with
    | mk n pub args ext sup body =>
      simp only [setPublicity, statementD]
      cases ext with
      | some e => rfl
      | none =>
        cases sup with
        | false => rfl
        | true =>
          simp only [Option.isSome_none, Bool.not_true, Bool.false_eq_true,
            if_false, Bool.not_false, if_true]
          exact module_function_publicity g1 g2 hname hscope hts
            n p pub args none true body
  | Import i => rfl
  | CustomType => rfl
  | TypeAlias => rfl
  | ModuleConstant => rfl

/-- Import collection is publicity-blind (`register_external_function`
ignores its publicity parameter). -/
theorem collectImportsAux_publicity (p : Publicity) (t : Imports)
    (defs : List Definition) :
    collectImportsAux t (defs.map (setPublicity p)) =
      collectImportsAux t defs := by
  induction defs generalizing t with
  | nil => rfl
  | cons d rest ih =>
    cases d with
    | Import i =>
      simp only [List.map_cons, setPublicity, collectImportsAux, Bind.bind,
        Except.bind]
      cases hr : register_import t i.module i.as_name i.unqualified_values with
      | error e => rfl
      | ok t1 => exact ih t1
    | Function f =>
      cases f with
      | mk n pub args ext sup body =>
        simp only [List.map_cons, setPublicity, collectImportsAux]
        cases n with
        | none => cases ext <;> exact ih t
        | some name =>
          cases ext with
          | none => exact ih t
          | some e =>
            show collectImportsAux
                (register_external_function t p name e.1 e.2) _ =
              collectImportsAux
                (register_external_function t pub name e.1 e.2) _
            rw [show register_external_function t p name e.1 e.2 =
              register_external_function t pub name e.1 e.2 from rfl]
            exact ih _
    | CustomType => exact ih t
    | TypeAlias => exact ih t
    | ModuleConstant => exact ih t

/-- `compile` is publicity-blind. -/
theorem compile_publicity (name : String) (defs : List Definition)
    (ts : TargetSupport) (p : Publicity) :
    compile (ModGen.new ⟨name, defs.map (setPublicity p)⟩ ts) =
      compile (ModGen.new ⟨name, defs⟩ ts) := by
  unfold compile collect_imports
  have h1 : collectImportsAux Imports.new
      ((ModGen.new ⟨name, defs.map (setPublicity p)⟩ ts).module.definitions) =
      collectImportsAux Imports.new
        ((ModGen.new ⟨name, defs⟩ ts).module.definitions) :=
    collectImportsAux_publicity p Imports.new defs
  rw [h1]
  have h2 : (ModGen.new ⟨name, defs.map (setPublicity p)⟩ ts).module.definitions.map
      (statementD (ModGen.new ⟨name, defs.map (setPublicity p)⟩ ts)) =
      (ModGen.new ⟨name, defs⟩ ts).module.definitions.map
        (statementD (ModGen.new ⟨name, defs⟩ ts)) := by
    show (defs.map (setPublicity p)).map _ = defs.map _
    rw [List.map_map]
    exact List.map_congr_left fun d _ =>
      statementD_publicity _ _ rfl rfl rfl p d
  rw [h2]

/-- C10: generated output is invariant under publicity annotations:
overwriting every definition's publicity changes nothing in the module
entry point's result (imports, definitions, errors alike); the function
header keyword is `def ` on both publicity branches; and the registration
of foreign-binding imports ignores publicity entirely. -/
theorem output_invariant_under_publicity :
    (∀ (name path src : String) (defs : List Definition)
       (ts : TargetSupport) (p : Publicity),
       moduleDoc ⟨name, defs.map (setPublicity p)⟩ path src ts =
         moduleDoc ⟨name, defs⟩ path src ts) ∧
    (∀ pub : Publicity, (if pub.is_private then "def " else "def ") = "def ") ∧
    (∀ (t : Imports) (pA pB : Publicity) (n m fn : String),
       register_external_function t pA n m fn =
         register_external_function t pB n m fn) := by
  refine ⟨?_, ?_, ?_⟩
  · intro name path src defs ts p
    unfold moduleDoc
    rw [compile_publicity name defs ts p]
  · intro pub
    cases pub <;> rfl
  · intro t pA pB n m fn
    rfl

end Python
